import Mathlib

/-!
# Verification of the `hintents` utility scripts

Shallow embedding of the three Python scripts of the repository:

* `create_issues.py` — parses a markdown numbered list into issue
  records using the pattern `^(\d+)\.\s+(\[.*?].*)$` (variant A).
* `create_missing_issues.py` — same scan with the looser pattern
  `^(\d+)\.\s+(.*)$`, an explicit indentation check, and a
  string-set filter `missing_numbers` on the leading number
  (variant B).
* `emojis.py` — rewrites text by applying a fixed ordered table of
  `str.replace` substitutions.

Python strings are modelled as Lean `String` (a list of unicode
scalar values, matching Python's code-point view).  The character
classes `\s`, `\d` and `str.strip` are modelled over their ASCII
range, which is the only range exercised by the scripts' data.
-/

/-- Whitespace characters of Python's `\s` (ASCII range), also used by
`str.strip`. -/
def isWSChar (c : Char) : Bool :=
  c == ' ' || c == '\t' || c == '\n' || c == '\r' || c == '\u000b' || c == '\u000c'

/-- Python `str.strip()`: drop leading and trailing whitespace. -/
def stripChars (l : List Char) : List Char :=
  ((l.dropWhile isWSChar).reverse.dropWhile isWSChar).reverse

/-- Python `str.strip()` lifted to `String`. -/
def pyStrip (s : String) : String := ⟨stripChars s.data⟩

/-- Python `str.startswith(pre)`. -/
def pyStartsWith (s pre : String) : Bool := pre.data.isPrefixOf s.data

/-- `re.match(r'^(\d+)\.\s+(\[.*?].*)$', line)` of `create_issues.py`:
maximal digit run (backtracking cannot shorten it, since a shorter run
would leave a digit where `\.` is required), a literal `.`, a maximal
whitespace run (a shorter run would leave whitespace where `\[` is
required), then group 2 starting at `[`: it must contain a `]` not
preceded by a newline (`.` never matches `\n`), `.*` then extends to
the end of the non-newline text, and `$` accepts only at the end of
the string or before a single terminal newline.  Returns
`(group 1, group 2)`. -/
def matchA (line : String) : Option (String × String) :=
  let cs := line.data
  let ds := cs.takeWhile Char.isDigit
  let r1 := cs.dropWhile Char.isDigit
  if ds.isEmpty then none else
  match r1 with
  | '.' :: r2 =>
    let ws := r2.takeWhile isWSChar
    let r3 := r2.dropWhile isWSChar
    if ws.isEmpty then none else
    match r3 with
    | '[' :: r4 =>
      let vis := r4.takeWhile (fun c => c != '\n')
      let rest := r4.dropWhile (fun c => c != '\n')
      if vis.contains ']' && (rest.isEmpty || rest == ['\n']) then
        some (⟨ds⟩, ⟨'[' :: vis⟩)
      else none
    | _ => none
  | _ => none

/-- `re.match(r'^(\d+)\.\s+(.*)$', line)` of `create_missing_issues.py`:
same leading structure, but group 2 is the whole non-newline remainder
after the maximal whitespace run (possibly empty). -/
def matchB (line : String) : Option (String × String) :=
  let cs := line.data
  let ds := cs.takeWhile Char.isDigit
  let r1 := cs.dropWhile Char.isDigit
  if ds.isEmpty then none else
  match r1 with
  | '.' :: r2 =>
    let ws := r2.takeWhile isWSChar
    let r3 := r2.dropWhile isWSChar
    if ws.isEmpty then none else
    let vis := r3.takeWhile (fun c => c != '\n')
    let rest := r3.dropWhile (fun c => c != '\n')
    if rest.isEmpty || rest == ['\n'] then some (⟨ds⟩, ⟨vis⟩) else none
  | _ => none

/-- An issue record `{"title": ..., "body": ...}`. -/
structure Issue where
  title : String
  body : String
deriving DecidableEq, Repr

/-- Python `"".join(pieces)`. -/
def joinAll : List String → String
  | [] => ""
  | s :: rest => s ++ joinAll rest

/-- Loop state of the extraction loop in `create_issues.py`. -/
structure StateA where
  currentTitle : Option String
  currentBody : List String
  issues : List Issue

/-- The emission guarded by `if current_title:` (Python truthiness:
`None` and the empty string both fail the test). -/
def emitA (st : StateA) : List Issue :=
  match st.currentTitle with
  | some t =>
    if t ≠ "" then st.issues ++ [{ title := t, body := pyStrip (joinAll st.currentBody) }]
    else st.issues
  | none => st.issues

/-- One iteration of the `for line in lines` loop of `create_issues.py`. -/
def stepA (st : StateA) (line : String) : StateA :=
  match matchA line with
  | some m => { currentTitle := some (pyStrip m.2), currentBody := [], issues := emitA st }
  | none =>
    match st.currentTitle with
    | some _ => { st with currentBody := st.currentBody ++ [line] }
    | none => st

/-- The full extraction of `create_issues.py` (loop plus final flush). -/
def extractA (lines : List String) : List Issue :=
  emitA (lines.foldl stepA { currentTitle := none, currentBody := [], issues := [] })

/-- Loop state of the extraction loop in `create_missing_issues.py`. -/
structure StateB where
  currentTitle : Option String
  currentNum : Option String
  currentBody : List String
  issues : List Issue

/-- Membership test `current_num in missing_numbers`; `None` is in no
set of strings. -/
def numSel (sel : List String) : Option String → Bool
  | none => false
  | some n => sel.contains n

/-- The emission guarded by
`if current_title and current_num in missing_numbers:`. -/
def emitB (sel : List String) (st : StateB) : List Issue :=
  match st.currentTitle with
  | some t =>
    if (!(t == "")) && numSel sel st.currentNum then
      st.issues ++ [{ title := t, body := pyStrip (joinAll st.currentBody) }]
    else st.issues
  | none => st.issues

/-- One iteration of the loop of `create_missing_issues.py`, generic in
the filter set (`missing_numbers` in the script). -/
def stepB (sel : List String) (st : StateB) (line : String) : StateB :=
  match matchB line with
  | some m =>
    if pyStartsWith line " " || pyStartsWith line "\t" then
      match st.currentTitle with
      | some _ => { st with currentBody := st.currentBody ++ [line] }
      | none => st
    else
      { currentTitle := some (pyStrip m.2), currentNum := some m.1,
        currentBody := [], issues := emitB sel st }
  | none =>
    match st.currentTitle with
    | some _ => { st with currentBody := st.currentBody ++ [line] }
    | none => st

/-- Extraction of `create_missing_issues.py`, generic in the filter set. -/
def extractBGen (sel : List String) (lines : List String) : List Issue :=
  emitB sel (lines.foldl (stepB sel)
    { currentTitle := none, currentNum := none, currentBody := [], issues := [] })

/-- The hard-coded set `missing_numbers` of `create_missing_issues.py`. -/
def missingNumbers : List String := ["109", "110", "111", "113", "114", "116", "118", "119"]

/-- The full extraction of `create_missing_issues.py`. -/
def extractB (lines : List String) : List Issue := extractBGen missingNumbers lines

/-- What `create_issues.py` does right after extraction: it prints the
count of parsed issues, and exits successfully when the count is zero
(`if not issues: sys.exit(0)`).  Modelled as the reported count and
the early-success-exit flag. -/
def reportA (lines : List String) : Nat × Bool :=
  ((extractA lines).length, (extractA lines).isEmpty)

/-! ## Reference segmentation

`segs info lines` is the specification-side description of the scan:
lines before the first title line are discarded; each title line opens
a segment holding exactly the lines strictly between it and the next
title line (or the end of input). -/

/-- Title-line recognizer of variant A together with the stripped
title it produces. -/
def infoA (line : String) : Option String := (matchA line).map (fun m => pyStrip m.2)

/-- Title-line recognizer of variant B: the pattern must match and the
line must be unindented; yields the exact digit string and the
stripped remainder. -/
def titleInfoB (line : String) : Option (String × String) :=
  match matchB line with
  | some m =>
    if pyStartsWith line " " || pyStartsWith line "\t" then none
    else some (m.1, pyStrip m.2)
  | none => none

/-- Group the input into segments: one per title line, carrying the
lines strictly between that title line and the next one (or the end of
the input).  Lines before the first title line belong to no segment. -/
def segs {α : Type} (info : String → Option α) : List String → List (α × List String)
  | [] => []
  | l :: ls =>
    match info l with
    | some a => (a, ls.takeWhile (fun x => (info x).isNone)) :: segs info ls
    | none => segs info ls

/-- A record body: trimmed concatenation of the accumulated lines. -/
def bodyOf (b : List String) : String := pyStrip (joinAll b)

/-- Variant A, as the specification describes it: one record per
title line, whose body is the trimmed verbatim concatenation of the
lines strictly between its title line and the next one. -/
def refA (lines : List String) : List Issue :=
  (segs infoA lines).map (fun s => { title := s.1, body := bodyOf s.2 })

/-- Variant B, generic in the filter set: the segmentation is the same
as variant A's (with variant B's title test); a segment is emitted as
a record exactly when its stripped title is non-empty (Python
truthiness) and its digit string is in the filter set. -/
def refBGen (sel : List String) (lines : List String) : List Issue :=
  ((segs titleInfoB lines).filter
    (fun s => (!(s.1.2 == "")) && sel.contains s.1.1)).map
    (fun s => { title := s.1.2, body := bodyOf s.2 })

/-- Variant B with the script's hard-coded filter set. -/
def refB (lines : List String) : List Issue := refBGen missingNumbers lines

/-! ## Token reading -/

/-- Python `line.split(sep)` for a single-character separator. -/
def splitCh (c : Char) : List Char → List (List Char)
  | [] => [[]]
  | d :: t =>
    match splitCh c t with
    | [] => [[]]
    | h :: r => if d == c then [] :: h :: r else (d :: h) :: r

/-- Python `line.split("=")` lifted to `String`. -/
def pySplitEq (s : String) : List String := (splitCh '=' s.data).map (fun l => ⟨l⟩)

/-- The token-reading loop of both scripts:
`for line in f: if line.startswith("GITHUB_TOKEN"): token = line.split("=")[1].strip()`.
`none` models the `IndexError` raised by `[1]` when a matching line
has no `=`. -/
def readTokenAux (tok : String) : List String → Option String
  | [] => some tok
  | line :: rest =>
    if pyStartsWith line "GITHUB_TOKEN" then
      match (pySplitEq line).get? 1 with
      | some v => readTokenAux (pyStrip v) rest
      | none => none
    else readTokenAux tok rest

/-- The token after reading the credentials file (initial value `""`). -/
def readToken (lines : List String) : Option String := readTokenAux "" lines

/-! ## Emoji replacement (`emojis.py`) -/

/-- Python `s.replace(k :: kt, v)` on code-point lists: scan left to
right, replacing each non-overlapping occurrence of the (non-empty)
pattern.  (The script only ever calls `replace` with non-empty
patterns.) -/
def replaceAll (k : Char) (kt v : List Char) : List Char → List Char
  | [] => []
  | c :: t =>
    if (k :: kt).isPrefixOf (c :: t) then v ++ replaceAll k kt v (t.drop kt.length)
    else c :: replaceAll k kt v t
termination_by s => s.length
decreasing_by
  · simp [List.length_cons]
    omega
  · simp [List.length_cons]

/-- Python `content.replace(pat, rep)`; with an empty pattern the
script's behaviour is irrelevant (never called), modelled as identity. -/
def pyReplace (s pat rep : String) : String :=
  match pat.data with
  | [] => s
  | k :: kt => ⟨replaceAll k kt rep.data s.data⟩

/-- The ordered `replacements` table of `emojis.py` (dicts preserve
insertion order).  Two-code-point keys end in U+FE0F. -/
def replacements : List (String × String) :=
  [("✅", "[OK]"),
   ("❌", "[FAIL]"),
   ("[WARN]", "[WARN]"),
   ("✓", "[OK]"),
   ("✗", "[FAIL]"),
   ("⚡", "*"),
   ("🚀", ""),
   ("🔍", "[SEARCH]"),
   ("➡️", "->"),
   ("⬅️", "<-"),
   ("🎯", "[TARGET]"),
   ("📍", "[LOC]"),
   ("🔧", "[TOOL]"),
   ("📊", "[STATS]"),
   ("📋", "[LIST]"),
   ("▶️", "[PLAY]"),
   ("📖", "[DOC]"),
   ("👋", "[HELLO]"),
   ("📡", "[NET]")]

/-- Fold a replacement table over a string, in order. -/
def applyFrom (tbl : List (String × String)) (s : String) : String :=
  tbl.foldl (fun acc p => pyReplace acc p.1 p.2) s

/-- `for emoji, replacement in replacements.items(): new_content =
new_content.replace(emoji, replacement)`. -/
def applyReplacements (content : String) : String := applyFrom replacements content

/-- Per-file behaviour of `emojis.py`: compute the converted content
and rewrite the file only when it changed (`if content != new_content`).
`some n` means the file is rewritten with `n`; `none` means it is left
untouched. -/
def processFile (content : String) : Option String :=
  let n := applyReplacements content
  if content ≠ n then some n else none

/-! ## Claim-side counting (for claim C3) -/

/-- The count claimed for variant B: lines matching the title test
whose digit string passes the filter. -/
def claimedSelCountB (lines : List String) : Nat :=
  ((lines.filterMap titleInfoB).filter (fun p => missingNumbers.contains p.1)).length

/-! ## Basic lemmas -/

theorem joinAll_append (a b : List String) : joinAll (a ++ b) = joinAll a ++ joinAll b := by
  induction a with
  | nil => simp [joinAll]
  | cons x xs ih => simp [joinAll, ih, String.append_assoc]

theorem stripChars_cons_ne_nil {c : Char} (h : isWSChar c = false) (l : List Char) :
    stripChars (c :: l) ≠ [] := by
  intro hcon
  unfold stripChars at hcon
  rw [List.dropWhile_cons] at hcon
  simp [h, List.dropWhile_eq_nil_iff] at hcon
  simpa [h] using hcon c (Or.inr rfl)

theorem string_mk_ne_empty {l : List Char} (h : l ≠ []) : (⟨l⟩ : String) ≠ "" := by
  intro hcon
  apply h
  have : (⟨l⟩ : String).data = ("" : String).data := by rw [hcon]
  simpa using this

theorem matchA_snd_shape {l : String} {m : String × String} (h : matchA l = some m) :
    ∃ vis, m.2 = ⟨'[' :: vis⟩ := by
  simp only [matchA] at h
  split at h
  · exact absurd h (by simp)
  · split at h
    · split at h
      · exact absurd h (by simp)
      · split at h
        · split at h
          · have hm := (Option.some.inj h).symm
            exact ⟨_, by rw [hm]⟩
          · exact absurd h (by simp)
        · exact absurd h (by simp)
    · exact absurd h (by simp)

theorem infoA_ne_empty {l : String} {t : String} (h : infoA l = some t) : t ≠ "" := by
  simp only [infoA, Option.map_eq_some'] at h
  obtain ⟨m, hm, ht⟩ := h
  obtain ⟨vis, hv⟩ := matchA_snd_shape hm
  subst ht
  rw [hv]
  show pyStrip ⟨'[' :: vis⟩ ≠ ""
  unfold pyStrip
  exact string_mk_ne_empty (stripChars_cons_ne_nil (by decide) vis)

/-! ## Variant A equals its reference description -/

theorem foldA_open (ls : List String) :
    ∀ (t : String) (b : List String) (iss : List Issue), t ≠ "" →
      emitA (ls.foldl stepA ⟨some t, b, iss⟩) =
        iss ++ ({ title := t,
                  body := bodyOf (b ++ ls.takeWhile (fun x => (infoA x).isNone)) } :: refA ls) := by
  induction ls with
  | nil =>
    intro t b iss ht
    simp [emitA, refA, segs, ht, bodyOf]
  | cons l ls ih =>
    intro t b iss ht
    cases h : matchA l with
    | some m =>
      have hinfo : infoA l = some (pyStrip m.2) := by simp [infoA, h]
      have ht' := infoA_ne_empty hinfo
      simp only [List.foldl_cons, stepA, h]
      rw [ih (pyStrip m.2) [] _ ht']
      simp [emitA, ht, refA, segs, hinfo, List.takeWhile_cons, bodyOf]
    | none =>
      have hinfo : infoA l = none := by simp [infoA, h]
      simp only [List.foldl_cons, stepA, h]
      rw [ih t (b ++ [l]) iss ht]
      simp [refA, segs, hinfo, List.takeWhile_cons, List.append_assoc, bodyOf]

theorem foldA_closed (ls : List String) :
    ∀ iss : List Issue,
      emitA (ls.foldl stepA ⟨none, [], iss⟩) = iss ++ refA ls := by
  induction ls with
  | nil => intro iss; simp [emitA, refA, segs]
  | cons l ls ih =>
    intro iss
    cases h : matchA l with
    | some m =>
      have hinfo : infoA l = some (pyStrip m.2) := by simp [infoA, h]
      have ht' := infoA_ne_empty hinfo
      simp only [List.foldl_cons, stepA, h]
      rw [foldA_open ls (pyStrip m.2) [] _ ht']
      simp [emitA, refA, segs, hinfo, bodyOf]
    | none =>
      have hinfo : infoA l = none := by simp [infoA, h]
      simp only [List.foldl_cons, stepA, h]
      rw [ih iss]
      simp [refA, segs, hinfo]

theorem extractA_eq_refA (lines : List String) : extractA lines = refA lines := by
  have h := foldA_closed lines []
  simpa [extractA] using h

/-! ## Variant B equals its reference description -/

theorem stepB_title {sel : List String} {st : StateB} {line n t : String}
    (h : titleInfoB line = some (n, t)) :
    stepB sel st line =
      { currentTitle := some t, currentNum := some n, currentBody := [],
        issues := emitB sel st } := by
  unfold titleInfoB at h
  cases hm : matchB line with
  | none => rw [hm] at h; exact absurd h (by simp)
  | some m =>
    simp only [hm] at h
    by_cases hind : (pyStartsWith line " " || pyStartsWith line "\t") = true
    · rw [if_pos hind] at h; exact absurd h (by simp)
    · rw [if_neg hind] at h
      obtain ⟨hn, ht⟩ := Prod.mk.injEq .. ▸ Option.some.inj h
      simp [stepB, hm, hind, ← hn, ← ht]

theorem stepB_body {sel : List String} {st : StateB} {line : String}
    (h : titleInfoB line = none) :
    stepB sel st line =
      match st.currentTitle with
      | some _ => { st with currentBody := st.currentBody ++ [line] }
      | none => st := by
  unfold titleInfoB at h
  cases hm : matchB line with
  | none => simp [stepB, hm]
  | some m =>
    simp only [hm] at h
    by_cases hind : (pyStartsWith line " " || pyStartsWith line "\t") = true
    · simp [stepB, hm, hind]
    · rw [if_neg hind] at h; exact absurd h (by simp)

theorem foldB_open (sel : List String) (ls : List String) :
    ∀ (t n : String) (b : List String) (iss : List Issue),
      emitB sel (ls.foldl (stepB sel) ⟨some t, some n, b, iss⟩) =
        iss ++ ((if (!(t == "")) && sel.contains n then
            [{ title := t,
               body := bodyOf (b ++ ls.takeWhile (fun x => (titleInfoB x).isNone)) }]
          else []) ++ refBGen sel ls) := by
  induction ls with
  | nil =>
    intro t n b iss
    simp only [List.foldl_nil, emitB, numSel, refBGen, segs, List.filter_nil, List.map_nil,
      List.takeWhile_nil, List.append_nil, bodyOf]
    split <;> simp
  | cons l ls ih =>
    intro t n b iss
    rcases htl : titleInfoB l with _ | ⟨n', t'⟩
    · rw [List.foldl_cons, stepB_body htl]
      simp only
      rw [ih t n (b ++ [l]) iss]
      simp [refBGen, segs, htl, List.takeWhile_cons, List.append_assoc, bodyOf]
    · rw [List.foldl_cons, stepB_title htl]
      rw [ih t' n' [] _]
      have hemit : emitB sel ⟨some t, some n, b, iss⟩ =
          iss ++ (if (!(t == "")) && sel.contains n then
            [{ title := t, body := bodyOf b }] else []) := by
        simp only [emitB, numSel, bodyOf]
        split <;> simp
      rw [hemit]
      simp [refBGen, segs, htl, List.takeWhile_cons, List.filter_cons, bodyOf]
      split <;> simp [List.append_assoc]

theorem foldB_closed (sel : List String) (ls : List String) :
    ∀ iss : List Issue,
      emitB sel (ls.foldl (stepB sel) ⟨none, none, [], iss⟩) = iss ++ refBGen sel ls := by
  induction ls with
  | nil => intro iss; simp [emitB, refBGen, segs]
  | cons l ls ih =>
    intro iss
    rcases htl : titleInfoB l with _ | ⟨n', t'⟩
    · rw [List.foldl_cons, stepB_body htl]
      simp only
      rw [ih iss]
      simp [refBGen, segs, htl]
    · rw [List.foldl_cons, stepB_title htl]
      rw [foldB_open sel ls t' n' [] _]
      have hemit : emitB sel ⟨none, none, [], iss⟩ = iss := by simp [emitB]
      rw [hemit]
      simp [refBGen, segs, htl, List.filter_cons, bodyOf]
      split <;> simp

theorem extractBGen_eq_refBGen (sel : List String) (lines : List String) :
    extractBGen sel lines = refBGen sel lines := by
  have h := foldB_closed sel lines []
  simpa [extractBGen] using h

theorem extractB_eq_refB (lines : List String) : extractB lines = refB lines :=
  extractBGen_eq_refBGen missingNumbers lines

/-! ## Titles, order, counts -/

theorem segs_map_fst {α : Type} (info : String → Option α) (lines : List String) :
    (segs info lines).map Prod.fst = lines.filterMap info := by
  induction lines with
  | nil => simp [segs]
  | cons l ls ih =>
    cases h : info l with
    | some a => simp [segs, h, List.filterMap_cons, ih]
    | none => simp [segs, h, List.filterMap_cons, ih]

theorem mapTitleA (lines : List String) :
    (extractA lines).map Issue.title = lines.filterMap infoA := by
  rw [extractA_eq_refA, ← segs_map_fst infoA lines]
  unfold refA
  simp [List.map_map, Function.comp]

theorem mapTitleB (sel : List String) (lines : List String) :
    (extractBGen sel lines).map Issue.title =
      ((lines.filterMap titleInfoB).filter
        (fun p => (!(p.2 == "")) && sel.contains p.1)).map Prod.snd := by
  rw [extractBGen_eq_refBGen, ← segs_map_fst titleInfoB lines, List.filter_map]
  unfold refBGen
  rw [List.map_map, List.map_map]
  rfl

theorem length_filterMap_eq_countP {α β : Type} (f : α → Option β) (l : List α) :
    (l.filterMap f).length = l.countP (fun a => (f a).isSome) := by
  induction l with
  | nil => simp
  | cons x xs ih =>
    cases h : f x with
    | some b => simp [List.filterMap_cons, h, List.countP_cons, ih]
    | none => simp [List.filterMap_cons, h, List.countP_cons, ih]

theorem length_filter_filterMap {α β : Type} (f : α → Option β) (p : β → Bool) (l : List α) :
    ((l.filterMap f).filter p).length =
      l.countP (fun a => match f a with | some b => p b | none => false) := by
  induction l with
  | nil => simp
  | cons x xs ih =>
    cases h : f x with
    | some b =>
      by_cases hp : p b = true <;>
        simp [List.filterMap_cons, h, List.filter_cons, List.countP_cons, hp, ih]
    | none => simp [List.filterMap_cons, h, List.countP_cons, ih]

/-! ## Claims C1–C4, C9 -/

/-- C1: in both variants, every emitted record's body is the trimmed
verbatim concatenation of exactly the lines strictly between its title
line and the next title line (or the end of input), so a body is never
built from its own title line: the extractors coincide with the
reference segmentation `segs`, whose segments hold exactly those
between-lines. -/
theorem c1_bodies_are_between_lines (lines : List String) :
    extractA lines = refA lines ∧ extractB lines = refB lines :=
  ⟨extractA_eq_refA lines, extractB_eq_refB lines⟩

/-- C2: the worked example of the specification, on the non-filtering
variant: two records, `{"[UI] Add X", "line a\nline b"}` and
`{"[DOC] Add Y", ""}`. -/
theorem c2_worked_example :
    extractA ["1. [UI] Add X\n", "line a\n", "line b\n", "2. [DOC] Add Y\n"] =
      [{ title := "[UI] Add X", body := "line a\nline b" },
       { title := "[DOC] Add Y", body := "" }] := by decide

/-- C4: records come out in input order of their title lines: the
titles of the emitted records are exactly the (selected) title lines'
titles, as a single in-order traversal (`filterMap`) of the input. -/
theorem c4_order_preserved (lines : List String) :
    (extractA lines).map Issue.title = lines.filterMap infoA ∧
    (extractB lines).map Issue.title =
      ((lines.filterMap titleInfoB).filter
        (fun p => (!(p.2 == "")) && missingNumbers.contains p.1)).map Prod.snd :=
  ⟨mapTitleA lines, mapTitleB missingNumbers lines⟩

/-- C9: for every filter set `sel`, the segmentation of the input
(`segs titleInfoB`, independent of `sel`) is unchanged; the filter only
decides which segments become records, and the body lines of a
rejected segment are discarded with it. -/
theorem c9_filter_only_selects (sel : List String) (lines : List String) :
    extractBGen sel lines =
      ((segs titleInfoB lines).filter
        (fun s => (!(s.1.2 == "")) && sel.contains s.1.1)).map
        (fun s => { title := s.1.2, body := bodyOf s.2 }) :=
  extractBGen_eq_refBGen sel lines

/-! ## Claim C3 -/

/-- C3, counterexample: `"109. \n"` matches variant B's title pattern
and its ordinal `109` passes the filter, yet no record is emitted,
because the matched remainder is empty and the empty title fails the
Python truthiness test at emission. -/
theorem c3_counterexample :
    (extractB ["109. \n"]).length = 0 ∧ claimedSelCountB ["109. \n"] = 1 := by decide

/-- C3, amended: the number of emitted records equals the number of
title-pattern matches that are not filtered out *and* whose remainder
is non-empty after stripping; in variant A the bracket in the pattern
makes every match's remainder non-empty, so the count is exactly the
number of matching lines. -/
theorem c3_amended_counts (lines : List String) :
    (extractA lines).length = lines.countP (fun l => (matchA l).isSome) ∧
    (extractB lines).length =
      lines.countP (fun l =>
        match titleInfoB l with
        | some p => (!(p.2 == "")) && missingNumbers.contains p.1
        | none => false) := by
  constructor
  · have h := congrArg List.length (mapTitleA lines)
    rw [List.length_map] at h
    rw [h, length_filterMap_eq_countP]
    apply List.countP_congr
    intro l _
    simp [infoA]
  · have h := congrArg List.length (mapTitleB missingNumbers lines)
    rw [List.length_map, List.length_map] at h
    unfold extractB
    rw [h, length_filter_filterMap]
    apply List.countP_congr
    intro l _
    cases htl : titleInfoB l <;> simp [htl]

/-! ## Claim C7 -/

theorem segs_eq_nil_of_no_title {α : Type} (info : String → Option α) (lines : List String)
    (h : ∀ l ∈ lines, (info l).isNone = true) : segs info lines = [] := by
  induction lines with
  | nil => simp [segs]
  | cons l ls ih =>
    have hl := h l (by simp)
    cases hinfo : info l with
    | some a => rw [hinfo] at hl; simp at hl
    | none => simpa [segs, hinfo] using ih (fun x hx => h x (by simp [hx]))

theorem foldA_skip (pre : List String) (h : ∀ l ∈ pre, (matchA l).isSome = false) :
    pre.foldl stepA ⟨none, [], []⟩ = ⟨none, [], []⟩ := by
  induction pre with
  | nil => rfl
  | cons l ls ih =>
    have hl := h l (by simp)
    cases hm : matchA l with
    | some m => rw [hm] at hl; simp at hl
    | none =>
      rw [List.foldl_cons]
      simp only [stepA, hm]
      exact ih (fun x hx => h x (by simp [hx]))

/-- C7: an input with no title-pattern match yields zero records (the
extractor is total, so no error arises); the caller is handed the count
`0` and the early-success-exit flag; and more generally any block of
non-matching lines before the first title line is discarded without a
trace — extraction of `pre ++ rest` equals extraction of `rest`. -/
theorem c7_zero_matches_and_prefix_discard (lines pre rest : List String)
    (h1 : ∀ l ∈ lines, (matchA l).isSome = false)
    (h2 : ∀ l ∈ pre, (matchA l).isSome = false) :
    extractA lines = [] ∧ reportA lines = (0, true) ∧
      extractA (pre ++ rest) = extractA rest := by
  have hnil : extractA lines = [] := by
    rw [extractA_eq_refA]
    unfold refA
    have hA : ∀ l ∈ lines, (infoA l).isNone = true := by
      intro l hl
      have hm := h1 l hl
      cases hx : matchA l with
      | some m => rw [hx] at hm; simp at hm
      | none => simp [infoA, hx]
    rw [segs_eq_nil_of_no_title infoA lines hA]
    simp
  refine ⟨hnil, by simp [reportA, hnil], ?_⟩
  unfold extractA
  rw [List.foldl_append, foldA_skip pre h2]

/-- Witness for C7 at a concrete input. -/
theorem c7_witness :
    extractA ["alpha\n"] = [] ∧ reportA ["alpha\n"] = (0, true) ∧
      extractA (["beta\n"] ++ ["1. [A] B\n"]) = extractA ["1. [A] B\n"] :=
  c7_zero_matches_and_prefix_discard ["alpha\n"] ["beta\n"] ["1. [A] B\n"]
    (by decide) (by decide)

/-! ## Claim C10 -/

theorem foldB_skip_body (sel : List String) (body : List String)
    (h : ∀ l ∈ body, (titleInfoB l).isNone = true) :
    ∀ st : StateB, st.currentTitle.isSome = true →
      body.foldl (stepB sel) st = { st with currentBody := st.currentBody ++ body } := by
  induction body with
  | nil => intro st _; simp
  | cons l ls ih =>
    intro st hst
    have hl : titleInfoB l = none := by
      have := h l (by simp)
      exact Option.isNone_iff_eq_none.mp this
    obtain ⟨t, ht⟩ := Option.isSome_iff_exists.mp hst
    rw [List.foldl_cons, stepB_body hl]
    rw [ht]
    simp only
    rw [ih (fun x hx => h x (by simp [hx])) _ (by simp [ht])]
    simp [ht]

theorem foldB_dead (sel : List String) (rest : List String) :
    ∀ (t n : String) (b : List String) (iss : List Issue), sel.contains n = false →
      emitB sel (rest.foldl (stepB sel) ⟨some t, some n, b, iss⟩) =
        emitB sel (rest.foldl (stepB sel) ⟨none, none, [], iss⟩) := by
  induction rest with
  | nil =>
    intro t n b iss hn
    have hn' : ¬ n ∈ sel := by simpa using hn
    simp [emitB, numSel, hn']
  | cons l ls ih =>
    intro t n b iss hn
    rcases htl : titleInfoB l with _ | ⟨n', t'⟩
    · rw [List.foldl_cons, List.foldl_cons, stepB_body htl, stepB_body htl]
      simp only
      exact ih t n (b ++ [l]) iss hn
    · rw [List.foldl_cons, List.foldl_cons, stepB_title htl, stepB_title htl]
      have hn' : ¬ n ∈ sel := by simpa using hn
      have he : emitB sel ⟨some t, some n, b, iss⟩ = iss := by
        simp [emitB, numSel, hn']
      have he' : emitB sel ⟨none, none, [], iss⟩ = iss := by simp [emitB]
      rw [he, he']

/-- C10: the filter compares the ordinal as the exact digit string.
A title line whose digit string is `"0109"` — which differs from the
member `"109"` only by a leading zero — opens a segment that is never
emitted: the whole segment (title line plus its body lines) leaves the
output unchanged. -/
theorem c10_leading_zeros_never_selected (line t : String) (body rest : List String)
    (h1 : titleInfoB line = some ("0109", t))
    (h2 : ∀ l ∈ body, (titleInfoB l).isNone = true) :
    extractB (line :: (body ++ rest)) = extractB rest ∧
      ("109" : String) ∈ missingNumbers ∧ ("0109" : String) ∉ missingNumbers := by
  refine ⟨?_, by decide, by decide⟩
  show extractBGen missingNumbers _ = extractBGen missingNumbers rest
  unfold extractBGen
  rw [List.foldl_cons, stepB_title h1]
  have he : emitB missingNumbers ⟨none, none, [], []⟩ = [] := by simp [emitB]
  rw [he, List.foldl_append]
  rw [foldB_skip_body missingNumbers body h2 _ (by simp)]
  simp only [List.nil_append]
  exact foldB_dead missingNumbers rest t "0109" body [] (by decide)

/-- Witness for C10 at a concrete input. -/
theorem c10_witness :
    extractB ("0109. docs: x\n" :: (["b1\n"] ++ ["109. y\n"])) = extractB ["109. y\n"] ∧
      ("109" : String) ∈ missingNumbers ∧ ("0109" : String) ∉ missingNumbers :=
  c10_leading_zeros_never_selected "0109. docs: x\n" "docs: x" ["b1\n"] ["109. y\n"]
    (by decide) (by decide)

/-! ## Claim C5 -/

/-- The common leading structure required of a title line: one or more
digits, a literal period, one or more whitespace characters, then a
remainder.  A line of this shape necessarily begins with a digit, so it
is unindented. -/
def titleShape (line : String) : Prop :=
  ∃ ds ws rest : List Char, ds ≠ [] ∧ (∀ c ∈ ds, c.isDigit = true) ∧ ws ≠ [] ∧
    (∀ c ∈ ws, isWSChar c = true) ∧ line.data = ds ++ '.' :: (ws ++ rest)

theorem matchA_shape {l : String} {m : String × String} (h : matchA l = some m) :
    titleShape l ∧ ∃ vis, m.2 = ⟨'[' :: vis⟩ ∧ ']' ∈ vis := by
  simp only [matchA] at h
  split at h
  · exact absurd h (by simp)
  · rename_i hds
    split at h
    · rename_i r1 r2 heq1
      split at h
      · exact absurd h (by simp)
      · rename_i hws
        split at h
        · rename_i r3x r4 heq2
          split at h
          · rename_i hcond
            have hm := (Option.some.inj h).symm
            have hc : ']' ∈ List.takeWhile (fun c => c != '\n') r4 := by
              have hc1 := ((Bool.and_eq_true _ _).mp hcond).1
              simpa using hc1
            refine ⟨⟨l.data.takeWhile Char.isDigit, r2.takeWhile isWSChar,
              r2.dropWhile isWSChar, by simpa using hds,
              fun c hc => List.mem_takeWhile_imp hc, by simpa using hws,
              fun c hc => List.mem_takeWhile_imp hc, ?_⟩, ⟨_, by rw [hm], hc⟩⟩
            rw [List.takeWhile_append_dropWhile, ← heq1, List.takeWhile_append_dropWhile]
          · exact absurd h (by simp)
        · exact absurd h (by simp)
    · exact absurd h (by simp)

theorem matchB_shape {l : String} {m : String × String} (h : matchB l = some m) :
    titleShape l := by
  simp only [matchB] at h
  split at h
  · exact absurd h (by simp)
  · rename_i hds
    split at h
    · rename_i r1 r2 heq1
      split at h
      · exact absurd h (by simp)
      · rename_i hws
        split at h
        · refine ⟨l.data.takeWhile Char.isDigit, r2.takeWhile isWSChar,
            r2.dropWhile isWSChar, by simpa using hds,
            fun c hc => List.mem_takeWhile_imp hc, by simpa using hws,
            fun c hc => List.mem_takeWhile_imp hc, ?_⟩
          rw [List.takeWhile_append_dropWhile, ← heq1, List.takeWhile_append_dropWhile]
        · exact absurd h (by simp)
    · exact absurd h (by simp)

/-- C5, counterexample: in the filtering variant a line whose remainder
after the whitespace is empty *is* treated as a title line: `"1. \n"`
matches with remainder `""`, and placed between a selected title line
and its would-be body it closes the open record (whose body therefore
stays empty) and swallows the following line. -/
theorem c5_counterexample :
    titleInfoB "1. \n" = some ("1", "") ∧
    extractB ["109. t\n", "1. \n", "x\n"] = [{ title := "t", body := "" }] := by
  decide

/-- C5, amended: in both variants a title line is unindented (it starts
with a digit) and consists of digits, a period and whitespace followed
by a remainder; in the bracket-constrained variant the remainder is
non-empty and begins with a bracketed tag — an opening `[`, some
characters, then a closing `]` — while in the filtering variant the
remainder may be empty. -/
theorem c5_amended_title_pattern (line : String) :
    (∀ n r : String, matchA line = some (n, r) →
      titleShape line ∧ (∃ tag rest2 : List Char, r.data = '[' :: (tag ++ ']' :: rest2)) ∧
        r ≠ "")
    ∧ (∀ n r : String, titleInfoB line = some (n, r) → titleShape line)
    ∧ titleInfoB "1. \n" = some ("1", "") := by
  refine ⟨?_, ?_, by decide⟩
  · intro n r h
    obtain ⟨hshape, vis, hv, hc⟩ := matchA_shape h
    refine ⟨hshape, ?_, ?_⟩
    · obtain ⟨u, w, hw⟩ := List.append_of_mem hc
      refine ⟨u, w, ?_⟩
      rw [show r = (⟨'[' :: vis⟩ : String) from hv]
      show '[' :: vis = '[' :: (u ++ ']' :: w)
      rw [hw]
    · rw [show r = (⟨'[' :: vis⟩ : String) from hv]
      exact string_mk_ne_empty (by simp)
  · intro n r h
    unfold titleInfoB at h
    cases hm : matchB line with
    | none => rw [hm] at h; exact absurd h (by simp)
    | some m => exact matchB_shape hm

/-- Witness for C5's amended claim at a concrete input. -/
theorem c5_amended_witness :
    titleShape "12. [A] B\n" ∧
      (∃ tag rest2 : List Char, ("[A] B" : String).data = '[' :: (tag ++ ']' :: rest2)) ∧
      ("[A] B" : String) ≠ "" :=
  (c5_amended_title_pattern "12. [A] B\n").1 "12" "[A] B" (by decide)

/-! ## Claim C6 -/

theorem readTokenAux_append (xs ys : List String) :
    ∀ t : String, readTokenAux t (xs ++ ys) =
      match readTokenAux t xs with
      | some u => readTokenAux u ys
      | none => none := by
  induction xs with
  | nil => intro t; simp [readTokenAux]
  | cons x xs ih =>
    intro t
    by_cases hx : pyStartsWith x "GITHUB_TOKEN" = true
    · cases hv : (pySplitEq x).get? 1 with
      | some v =>
        rw [List.get?_eq_getElem?] at hv
        simp [readTokenAux, hx, hv, ih]
      | none =>
        rw [List.get?_eq_getElem?] at hv
        simp [readTokenAux, hx, hv]
    · simp [readTokenAux, hx, ih]

theorem readTokenAux_no_match (ys : List String)
    (h : ∀ y ∈ ys, pyStartsWith y "GITHUB_TOKEN" = false) :
    ∀ t : String, readTokenAux t ys = some t := by
  induction ys with
  | nil => intro t; rfl
  | cons y ys ih =>
    intro t
    have hy := h y (by simp)
    simp [readTokenAux, hy, ih (fun x hx => h x (by simp [hx]))]

theorem readTokenAux_ok (xs : List String)
    (h : ∀ x ∈ xs, pyStartsWith x "GITHUB_TOKEN" = true → ((pySplitEq x).get? 1).isSome = true) :
    ∀ t : String, (readTokenAux t xs).isSome = true := by
  induction xs with
  | nil => intro t; rfl
  | cons x xs ih =>
    intro t
    by_cases hx : pyStartsWith x "GITHUB_TOKEN" = true
    · obtain ⟨v, hv⟩ := Option.isSome_iff_exists.mp (h x (by simp) hx)
      rw [List.get?_eq_getElem?] at hv
      simp [readTokenAux, hx, hv, ih (fun y hy => h y (by simp [hy]))]
    · simp [readTokenAux, hx, ih (fun y hy => h y (by simp [hy]))]

/-- C6, counterexample: with two matching credential lines the token
kept is the one of the *second* (last) line, not the first: the loop
reassigns `token` on every matching line. -/
theorem c6_counterexample :
    readToken ["GITHUB_TOKEN=aaa\n", "GITHUB_TOKEN=bbb\n"] = some "bbb" ∧
      readToken ["GITHUB_TOKEN=aaa\n", "GITHUB_TOKEN=bbb\n"] ≠ some "aaa" := by
  decide

/-- C6, amended: the token used is the one from the *last* matching
line: whatever well-formed matching lines precede it, a matching line
`l` with value `v` followed only by non-matching lines makes the final
token `v.strip()`. -/
theorem c6_amended_last_match_wins (xs ys : List String) (l v : String)
    (hx : ∀ x ∈ xs, pyStartsWith x "GITHUB_TOKEN" = true → ((pySplitEq x).get? 1).isSome = true)
    (h1 : pyStartsWith l "GITHUB_TOKEN" = true)
    (h2 : (pySplitEq l).get? 1 = some v)
    (hy : ∀ y ∈ ys, pyStartsWith y "GITHUB_TOKEN" = false) :
    readToken (xs ++ l :: ys) = some (pyStrip v) := by
  unfold readToken
  rw [readTokenAux_append]
  obtain ⟨u, hu⟩ := Option.isSome_iff_exists.mp (readTokenAux_ok xs hx "")
  rw [hu]
  simp only [readTokenAux, h1, h2]
  exact readTokenAux_no_match ys hy (pyStrip v)

/-- Witness for C6's amended claim at a concrete input. -/
theorem c6_amended_witness :
    readToken (["GITHUB_TOKEN=aaa\n"] ++ "GITHUB_TOKEN=bbb\n" :: ["END\n"]) =
      some (pyStrip "bbb\n") :=
  c6_amended_last_match_wins ["GITHUB_TOKEN=aaa\n"] ["END\n"] "GITHUB_TOKEN=bbb\n" "bbb\n"
    (by decide) (by decide) (by decide) (by decide)

/-! ## Claim C8: properties of `replaceAll` -/

theorem replaceAll_nil (k : Char) (kt v : List Char) : replaceAll k kt v [] = [] := by
  unfold replaceAll
  rfl

theorem replaceAll_cons_pos {k c : Char} {kt t : List Char} (v : List Char)
    (hp : (k :: kt).isPrefixOf (c :: t) = true) :
    replaceAll k kt v (c :: t) = v ++ replaceAll k kt v (t.drop kt.length) := by
  conv_lhs => unfold replaceAll
  simp [hp]

theorem replaceAll_cons_neg {k c : Char} {kt t : List Char} (v : List Char)
    (hp : ¬ (k :: kt).isPrefixOf (c :: t) = true) :
    replaceAll k kt v (c :: t) = c :: replaceAll k kt v t := by
  conv_lhs => unfold replaceAll
  simp [hp]

theorem mem_replaceAll {a k : Char} {kt v : List Char} :
    ∀ s : List Char, a ∈ replaceAll k kt v s → a ∈ s ∨ a ∈ v := by
  intro s
  induction s using replaceAll.induct k kt v with
  | case1 => simp [replaceAll_nil]
  | case2 c t hp ih =>
    intro hmem
    rw [replaceAll_cons_pos v hp] at hmem
    rcases List.mem_append.mp hmem with hv | hr
    · exact Or.inr hv
    · rcases ih hr with hs | hv
      · exact Or.inl (List.mem_cons_of_mem c (List.mem_of_mem_drop hs))
      · exact Or.inr hv
  | case3 c t hp ih =>
    intro hmem
    rw [replaceAll_cons_neg v hp] at hmem
    rcases List.mem_cons.mp hmem with rfl | hr
    · exact Or.inl (by simp)
    · rcases ih hr with hs | hv
      · exact Or.inl (List.mem_cons_of_mem c hs)
      · exact Or.inr hv

theorem replaceAll_not_mem {a k : Char} {kt v s : List Char}
    (hs : a ∉ s) (hv : a ∉ v) : a ∉ replaceAll k kt v s := by
  intro hmem
  rcases mem_replaceAll s hmem with h | h
  · exact hs h
  · exact hv h

theorem replaceAll_single_elim {c : Char} {v : List Char} (hv : c ∉ v) :
    ∀ s : List Char, c ∉ replaceAll c [] v s := by
  intro s
  induction s using replaceAll.induct c [] v with
  | case1 => rw [replaceAll_nil]; simp
  | case2 d t hp ih =>
    rw [replaceAll_cons_pos v hp]
    intro hmem
    rcases List.mem_append.mp hmem with h1 | h2
    · exact hv h1
    · exact ih h2
  | case3 d t hp ih =>
    rw [replaceAll_cons_neg v hp]
    intro hmem
    rcases List.mem_cons.mp hmem with rfl | h2
    · exact hp (by rw [List.isPrefixOf_iff_prefix]; exact ⟨t, rfl⟩)
    · exact ih h2

theorem singleton_infix_iff {α : Type} {c : α} {s : List α} : [c] <:+: s ↔ c ∈ s := by
  constructor
  · intro h
    exact h.sublist.subset (by simp)
  · intro h
    obtain ⟨u, w, hw⟩ := List.append_of_mem h
    exact ⟨u, w, by simp [hw]⟩

theorem pair_prefix_iff {α : Type} {a b c : α} {t : List α} :
    [a, b] <+: c :: t ↔ c = a ∧ t.head? = some b := by
  constructor
  · intro h
    obtain ⟨u, hu⟩ := h
    injection hu with h1 h2
    exact ⟨h1.symm, by rw [← h2]; rfl⟩
  · rintro ⟨rfl, hh⟩
    cases t with
    | nil => simp at hh
    | cons d t' =>
      have hd : d = b := by simpa using hh
      subst hd
      exact ⟨t', rfl⟩

theorem pair_infix_append {α : Type} {a b : α} (x y : List α)
    (h : [a, b] <:+: x ++ y) :
    [a, b] <:+: x ∨ [a, b] <:+: y ∨ (a ∈ x ∧ y.head? = some b) := by
  induction x with
  | nil => right; left; simpa using h
  | cons c x' ih =>
    rw [List.cons_append] at h
    rcases List.infix_cons_iff.mp h with hp | hi
    · rcases pair_prefix_iff.mp hp with ⟨rfl, hh⟩
      cases hx : x' with
      | nil =>
        subst hx
        right; right
        exact ⟨by simp, by simpa using hh⟩
      | cons d x'' =>
        subst hx
        have hd : d = b := by simpa using hh
        subst hd
        left
        exact ⟨[], x'', by simp⟩
    · rcases ih hi with h1 | h2 | h3
      · exact Or.inl (List.infix_cons_iff.mpr (Or.inr h1))
      · exact Or.inr (Or.inl h2)
      · exact Or.inr (Or.inr ⟨List.mem_cons_of_mem c h3.1, h3.2⟩)

theorem replaceAll_head {k : Char} {kt v : List Char} (hv : v ≠ []) (s : List Char) :
    replaceAll k kt v s = [] ∨
      ∃ d r, replaceAll k kt v s = d :: r ∧ (d ∈ v ∨ s.head? = some d) := by
  cases s with
  | nil => exact Or.inl (replaceAll_nil k kt v)
  | cons c t =>
    by_cases hp : (k :: kt).isPrefixOf (c :: t) = true
    · rw [replaceAll_cons_pos v hp]
      obtain ⟨d, v', rfl⟩ := List.exists_cons_of_ne_nil hv
      exact Or.inr ⟨d, v' ++ replaceAll k kt (d :: v') (t.drop kt.length),
        by simp, Or.inl (by simp)⟩
    · rw [replaceAll_cons_neg v hp]
      exact Or.inr ⟨c, _, rfl, Or.inr rfl⟩

theorem replaceAll_pair_elim {a b : Char} {v : List Char}
    (ha : a ∉ v) (hb : b ∉ v) (hv : v ≠ []) :
    ∀ s : List Char, ¬ [a, b] <:+: replaceAll a [b] v s := by
  intro s
  induction s using replaceAll.induct a [b] v with
  | case1 => rw [replaceAll_nil]; simp
  | case2 c t hp ih =>
    rw [replaceAll_cons_pos v hp]
    intro hcon
    rcases pair_infix_append v _ hcon with h1 | h2 | h3
    · exact ha (h1.sublist.subset (by simp))
    · exact ih h2
    · exact ha h3.1
  | case3 c t hp ih =>
    rw [replaceAll_cons_neg v hp]
    intro hcon
    rcases List.infix_cons_iff.mp hcon with hp2 | hi
    · rcases pair_prefix_iff.mp hp2 with ⟨rfl, hh⟩
      rcases replaceAll_head hv t with hnil | ⟨d, r, hdr, hd⟩
      · rw [hnil] at hh; simp at hh
      · rw [hdr] at hh
        have hdb : d = b := by simpa using hh
        subst hdb
        rcases hd with hdv | hdt
        · exact hb hdv
        · exact hp (by
            rw [List.isPrefixOf_iff_prefix]
            exact pair_prefix_iff.mpr ⟨rfl, hdt⟩)
    · exact ih hi

theorem replaceAll_pair_preserve {a b k : Char} {kt v : List Char}
    (ha : a ∉ v) (hb : b ∉ v) (hv : v ≠ []) :
    ∀ s : List Char, ¬ [a, b] <:+: s → ¬ [a, b] <:+: replaceAll k kt v s := by
  intro s
  induction s using replaceAll.induct k kt v with
  | case1 => intro _; rw [replaceAll_nil]; simp
  | case2 c t hp ih =>
    intro hs
    rw [replaceAll_cons_pos v hp]
    intro hcon
    have hdrop : ¬ [a, b] <:+: t.drop kt.length := fun hx =>
      hs (List.infix_cons_iff.mpr (Or.inr (hx.trans (List.drop_suffix _ _).isInfix)))
    rcases pair_infix_append v _ hcon with h1 | h2 | h3
    · exact ha (h1.sublist.subset (by simp))
    · exact ih hdrop h2
    · exact ha h3.1
  | case3 c t hp ih =>
    intro hs
    rw [replaceAll_cons_neg v hp]
    intro hcon
    have ht : ¬ [a, b] <:+: t := fun hx => hs (List.infix_cons_iff.mpr (Or.inr hx))
    rcases List.infix_cons_iff.mp hcon with hp2 | hi
    · rcases pair_prefix_iff.mp hp2 with ⟨rfl, hh⟩
      rcases replaceAll_head hv t with hnil | ⟨d, r, hdr, hd⟩
      · rw [hnil] at hh; simp at hh
      · rw [hdr] at hh
        have hdb : d = b := by simpa using hh
        subst hdb
        rcases hd with hdv | hdt
        · exact hb hdv
        · exact hs (List.infix_cons_iff.mpr (Or.inl (pair_prefix_iff.mpr ⟨rfl, hdt⟩)))
    · exact ih ht hi

theorem replaceAll_self (k : Char) (kt : List Char) :
    ∀ s : List Char, replaceAll k kt (k :: kt) s = s := by
  intro s
  induction s using replaceAll.induct k kt (k :: kt) with
  | case1 => exact replaceAll_nil k kt (k :: kt)
  | case2 c t hp ih =>
    rw [replaceAll_cons_pos _ hp, ih]
    obtain ⟨u, hu⟩ := List.isPrefixOf_iff_prefix.mp hp
    rw [List.cons_append] at hu
    injection hu with h1 h2
    rw [← h2, List.drop_left, h1]
    rfl
  | case3 c t hp ih => rw [replaceAll_cons_neg _ hp, ih]

theorem replaceAll_id_of_no_occ {k : Char} {kt v : List Char} :
    ∀ s : List Char, ¬ (k :: kt) <:+: s → replaceAll k kt v s = s := by
  intro s
  induction s using replaceAll.induct k kt v with
  | case1 => intro _; exact replaceAll_nil k kt v
  | case2 c t hp ih =>
    intro hs
    exact absurd (List.isPrefixOf_iff_prefix.mp hp).isInfix hs
  | case3 c t hp ih =>
    intro hs
    rw [replaceAll_cons_neg v hp, ih (fun hx => hs (List.infix_cons_iff.mpr (Or.inr hx)))]

/-! ## Claim C8: `str.replace` lifted to `String`, and the fold over the table -/

theorem pyReplace_not_mem {c : Char} {s pat v : String}
    (hs : c ∉ s.data) (hv : c ∉ v.data) : c ∉ (pyReplace s pat v).data := by
  unfold pyReplace
  split
  · exact hs
  · rename_i k kt heq
    show c ∉ replaceAll k kt v.data s.data
    exact replaceAll_not_mem hs hv

theorem pyReplace_pair_preserved {a b : Char} {s pat v : String}
    (hs : ¬ [a, b] <:+: s.data) (ha : a ∉ v.data) (hb : b ∉ v.data) (hv : v.data ≠ []) :
    ¬ [a, b] <:+: (pyReplace s pat v).data := by
  unfold pyReplace
  split
  · exact hs
  · rename_i k kt heq
    show ¬ [a, b] <:+: replaceAll k kt v.data s.data
    exact replaceAll_pair_preserve ha hb hv s.data hs

theorem pyReplace_single_gone {c : Char} {s v : String} (hv : c ∉ v.data) :
    c ∉ (pyReplace s ⟨[c]⟩ v).data := by
  show c ∉ replaceAll c [] v.data s.data
  exact replaceAll_single_elim hv s.data

theorem pyReplace_pair_gone {a b : Char} {s v : String}
    (ha : a ∉ v.data) (hb : b ∉ v.data) (hv : v.data ≠ []) :
    ¬ [a, b] <:+: (pyReplace s ⟨[a, b]⟩ v).data := by
  show ¬ [a, b] <:+: replaceAll a [b] v.data s.data
  exact replaceAll_pair_elim ha hb hv s.data

theorem pyReplace_self (s p : String) : pyReplace s p p = s := by
  unfold pyReplace
  split
  · rfl
  · rename_i k kt heq
    show (⟨replaceAll k kt p.data s.data⟩ : String) = s
    rw [heq, replaceAll_self k kt s.data]

theorem pyReplace_id_of_no_occ {s pat v : String} (h : ¬ pat.data <:+: s.data) :
    pyReplace s pat v = s := by
  unfold pyReplace
  split
  · rfl
  · rename_i k kt heq
    show (⟨replaceAll k kt v.data s.data⟩ : String) = s
    rw [replaceAll_id_of_no_occ s.data (heq ▸ h)]

theorem applyFrom_append (t1 t2 : List (String × String)) (s : String) :
    applyFrom (t1 ++ t2) s = applyFrom t2 (applyFrom t1 s) := by
  simp [applyFrom, List.foldl_append]

theorem applyFrom_cons (p : String × String) (tbl : List (String × String)) (s : String) :
    applyFrom (p :: tbl) s = applyFrom tbl (pyReplace s p.1 p.2) := rfl

theorem applyFrom_not_mem {c : Char} {tbl : List (String × String)} :
    ∀ s : String, c ∉ s.data → (∀ p ∈ tbl, c ∉ p.2.data) → c ∉ (applyFrom tbl s).data := by
  induction tbl with
  | nil => intro s hs _; exact hs
  | cons p tbl ih =>
    intro s hs hv
    rw [applyFrom_cons]
    exact ih _ (pyReplace_not_mem hs (hv p (by simp))) (fun q hq => hv q (by simp [hq]))

theorem applyFrom_pair_preserved {a b : Char} {tbl : List (String × String)} :
    ∀ s : String, ¬ [a, b] <:+: s.data →
      (∀ p ∈ tbl, a ∉ p.2.data ∧ b ∉ p.2.data ∧ p.2.data ≠ []) →
      ¬ [a, b] <:+: (applyFrom tbl s).data := by
  induction tbl with
  | nil => intro s hs _; exact hs
  | cons p tbl ih =>
    intro s hs hv
    rw [applyFrom_cons]
    obtain ⟨ha, hb, hne⟩ := hv p (by simp)
    exact ih _ (pyReplace_pair_preserved hs ha hb hne) (fun q hq => hv q (by simp [hq]))

theorem single_key_gone {c : Char} {v : String} {pre post : List (String × String)}
    (hc : c ∉ v.data) (hpost : ∀ p ∈ post, c ∉ p.2.data)
    (htbl : replacements = pre ++ (⟨[c]⟩, v) :: post) (s : String) :
    c ∉ (applyReplacements s).data := by
  unfold applyReplacements
  rw [htbl, applyFrom_append, applyFrom_cons]
  exact applyFrom_not_mem _ (pyReplace_single_gone hc) hpost

theorem pair_key_gone {a b : Char} {v : String} {pre post : List (String × String)}
    (ha : a ∉ v.data) (hb : b ∉ v.data) (hv : v.data ≠ [])
    (hpost : ∀ p ∈ post, a ∉ p.2.data ∧ b ∉ p.2.data ∧ p.2.data ≠ [])
    (htbl : replacements = pre ++ (⟨[a, b]⟩, v) :: post) (s : String) :
    ¬ [a, b] <:+: (applyReplacements s).data := by
  unfold applyReplacements
  rw [htbl, applyFrom_append, applyFrom_cons]
  exact applyFrom_pair_preserved _ (pyReplace_pair_gone ha hb hv) hpost

/-- If none of the table's keys occurs in `T` (the `"[WARN]"` key maps
to itself, so it needs no hypothesis), the whole pass is the identity. -/
theorem applyReplacements_id_of_clean (T : String)
    (h01 : '✅' ∉ T.data)
    (h02 : '❌' ∉ T.data)
    (h04 : '✓' ∉ T.data)
    (h05 : '✗' ∉ T.data)
    (h06 : '⚡' ∉ T.data)
    (h07 : '🚀' ∉ T.data)
    (h08 : '🔍' ∉ T.data)
    (h09 : ¬ ['➡', '\uFE0F'] <:+: T.data)
    (h10 : ¬ ['⬅', '\uFE0F'] <:+: T.data)
    (h11 : '🎯' ∉ T.data)
    (h12 : '📍' ∉ T.data)
    (h13 : '🔧' ∉ T.data)
    (h14 : '📊' ∉ T.data)
    (h15 : '📋' ∉ T.data)
    (h16 : ¬ ['▶', '\uFE0F'] <:+: T.data)
    (h17 : '📖' ∉ T.data)
    (h18 : '👋' ∉ T.data)
    (h19 : '📡' ∉ T.data) :
    applyReplacements T = T := by
  have e01 : pyReplace T "✅" "[OK]" = T := pyReplace_id_of_no_occ (by
    rw [show ("✅" : String).data = ['✅'] from rfl, singleton_infix_iff]
    exact h01)
  have e02 : pyReplace T "❌" "[FAIL]" = T := pyReplace_id_of_no_occ (by
    rw [show ("❌" : String).data = ['❌'] from rfl, singleton_infix_iff]
    exact h02)
  have e03 : pyReplace T "[WARN]" "[WARN]" = T := pyReplace_self T "[WARN]"
  have e04 : pyReplace T "✓" "[OK]" = T := pyReplace_id_of_no_occ (by
    rw [show ("✓" : String).data = ['✓'] from rfl, singleton_infix_iff]
    exact h04)
  have e05 : pyReplace T "✗" "[FAIL]" = T := pyReplace_id_of_no_occ (by
    rw [show ("✗" : String).data = ['✗'] from rfl, singleton_infix_iff]
    exact h05)
  have e06 : pyReplace T "⚡" "*" = T := pyReplace_id_of_no_occ (by
    rw [show ("⚡" : String).data = ['⚡'] from rfl, singleton_infix_iff]
    exact h06)
  have e07 : pyReplace T "🚀" "" = T := pyReplace_id_of_no_occ (by
    rw [show ("🚀" : String).data = ['🚀'] from rfl, singleton_infix_iff]
    exact h07)
  have e08 : pyReplace T "🔍" "[SEARCH]" = T := pyReplace_id_of_no_occ (by
    rw [show ("🔍" : String).data = ['🔍'] from rfl, singleton_infix_iff]
    exact h08)
  have e09 : pyReplace T "➡️" "->" = T := pyReplace_id_of_no_occ (by
    rw [show ("➡️" : String).data = ['➡', '\uFE0F'] from rfl]
    exact h09)
  have e10 : pyReplace T "⬅️" "<-" = T := pyReplace_id_of_no_occ (by
    rw [show ("⬅️" : String).data = ['⬅', '\uFE0F'] from rfl]
    exact h10)
  have e11 : pyReplace T "🎯" "[TARGET]" = T := pyReplace_id_of_no_occ (by
    rw [show ("🎯" : String).data = ['🎯'] from rfl, singleton_infix_iff]
    exact h11)
  have e12 : pyReplace T "📍" "[LOC]" = T := pyReplace_id_of_no_occ (by
    rw [show ("📍" : String).data = ['📍'] from rfl, singleton_infix_iff]
    exact h12)
  have e13 : pyReplace T "🔧" "[TOOL]" = T := pyReplace_id_of_no_occ (by
    rw [show ("🔧" : String).data = ['🔧'] from rfl, singleton_infix_iff]
    exact h13)
  have e14 : pyReplace T "📊" "[STATS]" = T := pyReplace_id_of_no_occ (by
    rw [show ("📊" : String).data = ['📊'] from rfl, singleton_infix_iff]
    exact h14)
  have e15 : pyReplace T "📋" "[LIST]" = T := pyReplace_id_of_no_occ (by
    rw [show ("📋" : String).data = ['📋'] from rfl, singleton_infix_iff]
    exact h15)
  have e16 : pyReplace T "▶️" "[PLAY]" = T := pyReplace_id_of_no_occ (by
    rw [show ("▶️" : String).data = ['▶', '\uFE0F'] from rfl]
    exact h16)
  have e17 : pyReplace T "📖" "[DOC]" = T := pyReplace_id_of_no_occ (by
    rw [show ("📖" : String).data = ['📖'] from rfl, singleton_infix_iff]
    exact h17)
  have e18 : pyReplace T "👋" "[HELLO]" = T := pyReplace_id_of_no_occ (by
    rw [show ("👋" : String).data = ['👋'] from rfl, singleton_infix_iff]
    exact h18)
  have e19 : pyReplace T "📡" "[NET]" = T := pyReplace_id_of_no_occ (by
    rw [show ("📡" : String).data = ['📡'] from rfl, singleton_infix_iff]
    exact h19)
  show applyFrom replacements T = T
  simp only [replacements, applyFrom, List.foldl_cons, List.foldl_nil]
  rw [e01, e02, e03, e04, e05, e06, e07, e08, e09, e10, e11, e12, e13, e14, e15, e16, e17, e18, e19]

/-- After one full pass no key of the table occurs in the result, so a
second pass changes nothing. -/
theorem applyReplacements_fixed (s : String) :
    applyReplacements (applyReplacements s) = applyReplacements s := by
  apply applyReplacements_id_of_clean
  · exact single_key_gone (by decide) (by decide)
      (show replacements = replacements.take 0 ++
        ((⟨['✅']⟩ : String), ("[OK]" : String)) :: replacements.drop 1 by decide) s
  · exact single_key_gone (by decide) (by decide)
      (show replacements = replacements.take 1 ++
        ((⟨['❌']⟩ : String), ("[FAIL]" : String)) :: replacements.drop 2 by decide) s
  · exact single_key_gone (by decide) (by decide)
      (show replacements = replacements.take 3 ++
        ((⟨['✓']⟩ : String), ("[OK]" : String)) :: replacements.drop 4 by decide) s
  · exact single_key_gone (by decide) (by decide)
      (show replacements = replacements.take 4 ++
        ((⟨['✗']⟩ : String), ("[FAIL]" : String)) :: replacements.drop 5 by decide) s
  · exact single_key_gone (by decide) (by decide)
      (show replacements = replacements.take 5 ++
        ((⟨['⚡']⟩ : String), ("*" : String)) :: replacements.drop 6 by decide) s
  · exact single_key_gone (by decide) (by decide)
      (show replacements = replacements.take 6 ++
        ((⟨['🚀']⟩ : String), ("" : String)) :: replacements.drop 7 by decide) s
  · exact single_key_gone (by decide) (by decide)
      (show replacements = replacements.take 7 ++
        ((⟨['🔍']⟩ : String), ("[SEARCH]" : String)) :: replacements.drop 8 by decide) s
  · exact pair_key_gone (by decide) (by decide) (by decide) (by decide)
      (show replacements = replacements.take 8 ++
        ((⟨['➡', '\uFE0F']⟩ : String), ("->" : String)) :: replacements.drop 9 by decide) s
  · exact pair_key_gone (by decide) (by decide) (by decide) (by decide)
      (show replacements = replacements.take 9 ++
        ((⟨['⬅', '\uFE0F']⟩ : String), ("<-" : String)) :: replacements.drop 10 by decide) s
  · exact single_key_gone (by decide) (by decide)
      (show replacements = replacements.take 10 ++
        ((⟨['🎯']⟩ : String), ("[TARGET]" : String)) :: replacements.drop 11 by decide) s
  · exact single_key_gone (by decide) (by decide)
      (show replacements = replacements.take 11 ++
        ((⟨['📍']⟩ : String), ("[LOC]" : String)) :: replacements.drop 12 by decide) s
  · exact single_key_gone (by decide) (by decide)
      (show replacements = replacements.take 12 ++
        ((⟨['🔧']⟩ : String), ("[TOOL]" : String)) :: replacements.drop 13 by decide) s
  · exact single_key_gone (by decide) (by decide)
      (show replacements = replacements.take 13 ++
        ((⟨['📊']⟩ : String), ("[STATS]" : String)) :: replacements.drop 14 by decide) s
  · exact single_key_gone (by decide) (by decide)
      (show replacements = replacements.take 14 ++
        ((⟨['📋']⟩ : String), ("[LIST]" : String)) :: replacements.drop 15 by decide) s
  · exact pair_key_gone (by decide) (by decide) (by decide) (by decide)
      (show replacements = replacements.take 15 ++
        ((⟨['▶', '\uFE0F']⟩ : String), ("[PLAY]" : String)) :: replacements.drop 16 by decide) s
  · exact single_key_gone (by decide) (by decide)
      (show replacements = replacements.take 16 ++
        ((⟨['📖']⟩ : String), ("[DOC]" : String)) :: replacements.drop 17 by decide) s
  · exact single_key_gone (by decide) (by decide)
      (show replacements = replacements.take 17 ++
        ((⟨['👋']⟩ : String), ("[HELLO]" : String)) :: replacements.drop 18 by decide) s
  · exact single_key_gone (by decide) (by decide)
      (show replacements = replacements.take 18 ++
        ((⟨['📡']⟩ : String), ("[NET]" : String)) :: replacements.drop 19 by decide) s

/-- C8: the emoji replacement is idempotent — applying the table to
already-converted text changes nothing, and on a re-run the file is
left untouched because the new content equals the old. -/
theorem c8_replacement_idempotent (content : String) :
    applyReplacements (applyReplacements content) = applyReplacements content ∧
    processFile (applyReplacements content) = none := by
  have hfix := applyReplacements_fixed content
  exact ⟨hfix, by simp [processFile, hfix]⟩
